/-
Verification of the orthomovie pipeline (src/orthomovie/__main__.py).

The program is a linear pipeline over a 4D MRI volume:
load -> global percentile limits -> three orthoslices (with numpy squeeze)
-> axis reorder (moveaxis + flip) -> rescale_intensity to uint8
-> upsampled display dimensions (up_dims) -> three mp4 encode jobs.

We shallow-embed the numeric arrays as total functions from natural-number
indices together with explicit shape data; intensities are rationals
(idealising IEEE floats as exact arithmetic, as the spec does).
-/
import Mathlib

namespace Orthomovie

/-- A 4D volume `img` with shape `(nx, ny, nz, nt)`, indexed `(x, y, z, t)`.
`val` is a total function; only indices below the bounds are meaningful. -/
structure Volume where
  nx : ℕ
  ny : ℕ
  nz : ℕ
  nt : ℕ
  val : ℕ → ℕ → ℕ → ℕ → ℚ

/-- A rank-3 array with shape `(d0, d1, d2)` and entries of type `α`. -/
structure Arr3 (α : Type) where
  d0 : ℕ
  d1 : ℕ
  d2 : ℕ
  val : ℕ → ℕ → ℕ → α

/-- An array of statically unknown rank (needed because `numpy.squeeze` can
drop axes): a shape list together with a total valuation on index lists. -/
structure NDArr where
  shape : List ℕ
  val : List ℕ → ℚ

/-- Shape of `numpy.ndarray.squeeze()`: every axis of size 1 is removed. -/
def squeezeShape (s : List ℕ) : List ℕ :=
  s.filter (fun d => decide (d ≠ 1))

/-- Rebuild a pre-squeeze index list from a post-squeeze one: a squeezed
(size-1) axis can only be indexed at 0, the others consume the next index. -/
def unsqueezeIdx : List ℕ → List ℕ → List ℕ
  | [], _ => []
  | d :: ds, idx =>
    if d = 1 then 0 :: unsqueezeIdx ds idx
    else idx.headD 0 :: unsqueezeIdx ds idx.tail

/-- `numpy.ndarray.squeeze()`: remove all axes of size 1. -/
def squeeze (a : NDArr) : NDArr :=
  ⟨squeezeShape a.shape, fun idx => a.val (unsqueezeIdx a.shape idx)⟩

/-- `img[:, :, z0, :]` — raw xy orthoslice, shape `(nx, ny, nt)`. -/
def rawXY (v : Volume) (z0 : ℕ) : NDArr :=
  ⟨[v.nx, v.ny, v.nt], fun idx => v.val (idx.getD 0 0) (idx.getD 1 0) z0 (idx.getD 2 0)⟩

/-- `img[:, y0, :, :]` — raw xz orthoslice, shape `(nx, nz, nt)`. -/
def rawXZ (v : Volume) (y0 : ℕ) : NDArr :=
  ⟨[v.nx, v.nz, v.nt], fun idx => v.val (idx.getD 0 0) y0 (idx.getD 1 0) (idx.getD 2 0)⟩

/-- `img[x0, :, :, :]` — raw yz orthoslice, shape `(ny, nz, nt)`. -/
def rawYZ (v : Volume) (x0 : ℕ) : NDArr :=
  ⟨[v.ny, v.nz, v.nt], fun idx => v.val x0 (idx.getD 0 0) (idx.getD 1 0) (idx.getD 2 0)⟩

/-- `xy = img[:, :, z0, :].squeeze()`. -/
def sliceXY (v : Volume) (z0 : ℕ) : NDArr := squeeze (rawXY v z0)

/-- `xz = img[:, y0, :, :].squeeze()`. -/
def sliceXZ (v : Volume) (y0 : ℕ) : NDArr := squeeze (rawXZ v y0)

/-- `yz = img[x0, :, :, :].squeeze()`. -/
def sliceYZ (v : Volume) (x0 : ℕ) : NDArr := squeeze (rawYZ v x0)

/-- Checked variant of `sliceXY`: numpy raises `IndexError` when the fixed
(non-negative) coordinate is not below the axis length; `none` models the
raised error. -/
def sliceXYChecked (v : Volume) (z0 : ℕ) : Option NDArr :=
  if z0 < v.nz then some (sliceXY v z0) else none

/-- Checked variant of `sliceXZ` (fixed coordinate `y0` on axis of length `ny`). -/
def sliceXZChecked (v : Volume) (y0 : ℕ) : Option NDArr :=
  if y0 < v.ny then some (sliceXZ v y0) else none

/-- Checked variant of `sliceYZ` (fixed coordinate `x0` on axis of length `nx`). -/
def sliceYZChecked (v : Volume) (x0 : ℕ) : Option NDArr :=
  if x0 < v.nx then some (sliceYZ v x0) else none

/-- The slicing stage of `main`, with the indexing errors made explicit:
the three orthoslices are extracted in source order (xy, xz, yz), and an
out-of-range fixed coordinate aborts the run (models the fatal `IndexError`). -/
def extractSlices (v : Volume) (x0 y0 z0 : ℕ) : Option (NDArr × NDArr × NDArr) := do
  let xy ← sliceXYChecked v z0
  let xz ← sliceXZChecked v y0
  let yz ← sliceYZChecked v x0
  pure (xy, xz, yz)

/-- Read a (squeezed) slice stack as the rank-3 array downstream code assumes
it to be. For non-degenerate volumes (no axis of size 1) this is exact. -/
def toArr3 (a : NDArr) : Arr3 ℚ :=
  ⟨a.shape.getD 0 1, a.shape.getD 1 1, a.shape.getD 2 1, fun i j k => a.val [i, j, k]⟩

/-- `np.moveaxis(x, [0, 1, 2], [2, 1, 0])` on a rank-3 array: axis order is
reversed, so `result[i, j, k] = x[k, j, i]`. -/
def moveaxisRev (a : Arr3 ℚ) : Arr3 ℚ :=
  ⟨a.d2, a.d1, a.d0, fun i j k => a.val k j i⟩

/-- `np.flip(x, axis=1)` on a rank-3 array. -/
def flipAxis1 (a : Arr3 ℚ) : Arr3 ℚ :=
  ⟨a.d0, a.d1, a.d2, fun i j k => a.val i (a.d1 - 1 - j) k⟩

/-- `np.flip(x, axis=(1, 2))` on a rank-3 array. -/
def flipAxes12 (a : Arr3 ℚ) : Arr3 ℚ :=
  ⟨a.d0, a.d1, a.d2, fun i j k => a.val i (a.d1 - 1 - j) (a.d2 - 1 - k)⟩

/-- `xy = np.flip(np.moveaxis(xy, [0, 1, 2], [2, 1, 0]), axis=1)`. -/
def reorderXY (a : Arr3 ℚ) : Arr3 ℚ := flipAxis1 (moveaxisRev a)

/-- `xz = np.flip(np.moveaxis(xz, [0, 1, 2], [2, 1, 0]), axis=1)`. -/
def reorderXZ (a : Arr3 ℚ) : Arr3 ℚ := flipAxis1 (moveaxisRev a)

/-- `yz = np.flip(np.moveaxis(yz, [0, 1, 2], [2, 1, 0]), axis=(1,2))`. -/
def reorderYZ (a : Arr3 ℚ) : Arr3 ℚ := flipAxes12 (moveaxisRev a)

/-- `np.percentile(l, p)` with the default linear interpolation method:
sort ascending, let `pos = (p/100)·(n-1)`, and interpolate between the
entries at `⌊pos⌋` and the next index (clipped to the last entry). -/
def npPercentile (p : ℚ) (l : List ℚ) : ℚ :=
  let s := l.mergeSort (fun a b => decide (a ≤ b))
  let n := l.length
  let pos : ℚ := p / 100 * ((n : ℚ) - 1)
  let i : ℕ := ⌊pos⌋₊
  let lo := s.getD i 0
  let hi := s.getD (min (i + 1) (n - 1)) 0
  lo + (pos - (i : ℚ)) * (hi - lo)

/-- All voxel intensities of the 4D volume, flattened. `np.percentile(img, ..)`
operates on exactly this multiset (the whole array at once). -/
def allVoxels (v : Volume) : List ℚ :=
  (List.range v.nx).flatMap fun x =>
    (List.range v.ny).flatMap fun y =>
      (List.range v.nz).flatMap fun z =>
        (List.range v.nt).map fun t => v.val x y z t

/-- `lims = tuple(np.percentile(img, (5, 99)))` — the global robust
rescaling limits, computed once over the entire 4D array. -/
def intensityLimits (v : Volume) : ℚ × ℚ :=
  (npPercentile 5 (allVoxels v), npPercentile 99 (allVoxels v))

/-- `np.clip(x, lo, hi) = np.minimum(hi, np.maximum(lo, x))` (scalar case). -/
def npClip (x lo hi : ℚ) : ℚ := min hi (max lo x)

/-- `skimage.exposure.rescale_intensity` on one value, with
`in_range=(lo, hi)` and `out_range=(0, 255)`: clip to `[lo, hi]`, then
(unless the input range is empty) map affinely onto `[0, 255]`. -/
def rescaleValue (lo hi x : ℚ) : ℚ :=
  let c := npClip x lo hi
  if lo = hi then c * 255 else (c - lo) / (hi - lo) * 255

/-- `.astype(np.uint8)` on a float value: truncation toward zero.  For the
nonnegative values produced by the pipeline, truncation coincides with the
floor; `% 256` reflects the wraparound the platform cast applies to values
beyond the uint8 range (in-range values are unaffected by it). -/
def astypeUint8 (q : ℚ) : ℕ := ⌊q⌋.toNat % 256

/-- `rescale_intensity(stack, in_range=lims, out_range=(0, 255)).astype(np.uint8)`
applied pointwise to a slice stack. -/
def rescaleStack (lo hi : ℚ) (a : Arr3 ℚ) : Arr3 ℕ :=
  ⟨a.d0, a.d1, a.d2, fun i j k => astypeUint8 (rescaleValue lo hi (a.val i j k))⟩

/-- `up_dims(im)`: reads `(nt, h, w) = im.shape`, pins whichever of `w`/`h`
is larger to `max_dim = 1024` and scales the other proportionally, rounded
down to a multiple of 16 (`int(..)` truncation on a nonnegative value is the
floor). Returns `(w_up, h_up)`. -/
def upDims (im : Arr3 ℕ) : ℕ × ℕ :=
  let maxDim : ℕ := 1024
  let h := im.d1
  let w := im.d2
  if w > h then (maxDim, ⌊((h : ℚ) * maxDim / w) / 16⌋₊ * 16)
  else (⌊((w : ℚ) * maxDim / h) / 16⌋₊ * 16, maxDim)

/-- `os.path.basename`: the part of the path after the last `/`. -/
def basename (p : String) : String := (p.splitOn "/").getLastD ""

/-- `img_stub = op.basename(img_fname).replace('.nii.gz', '').replace('.nii', '')`. -/
def imgStub (fname : String) : String :=
  ((basename fname).replace ".nii.gz" "").replace ".nii" ""

/-- One `imageio.mimwrite` call: target filename, frame rate, and the extra
ffmpeg output parameters. -/
structure EncodeJob where
  fname : String
  fps : ℕ
  outputParams : List String
deriving DecidableEq

/-- `['-vf', f'scale={w}:{h}:flags=neighbor']` — the slice-specific ffmpeg
parameters requesting nearest-neighbor upsampling to `w`×`h`. -/
def scaleParams (w h : ℕ) : List String :=
  ["-vf", "scale=" ++ toString w ++ ":" ++ toString h ++ ":flags=neighbor"]

/-- The numeric core of `main`: compute the global limits once, extract and
reorder the three slice stacks, and rescale each to uint8 with the one
shared limits pair (source lines 68-86). -/
def pipeline (v : Volume) (x0 y0 z0 : ℕ) : Arr3 ℕ × Arr3 ℕ × Arr3 ℕ :=
  let lims := intensityLimits v
  let xy := reorderXY (toArr3 (sliceXY v z0))
  let xz := reorderXZ (toArr3 (sliceXZ v y0))
  let yz := reorderYZ (toArr3 (sliceYZ v x0))
  (rescaleStack lims.1 lims.2 xy, rescaleStack lims.1 lims.2 xz,
    rescaleStack lims.1 lims.2 yz)

/-- The encoding stage of `main` (source lines 88-101): per-stack upsampled
dimensions, ffmpeg scale parameters, and the three `mimwrite` calls at a
fixed 24 fps, as a job list in source order. -/
def movieJobs (fname : String) (v : Volume) (x0 y0 z0 : ℕ) : List EncodeJob :=
  let stub := imgStub fname
  let s := pipeline v x0 y0 z0
  let xyD := upDims s.1
  let xzD := upDims s.2.1
  let yzD := upDims s.2.2
  [⟨stub ++ "_xy.mp4", 24, scaleParams xyD.1 xyD.2⟩,
    ⟨stub ++ "_xz.mp4", 24, scaleParams xzD.1 xzD.2⟩,
    ⟨stub ++ "_yz.mp4", 24, scaleParams yzD.1 yzD.2⟩]

/-! ### Helper lemmas -/

/-- The `int((s * max_dim/l)/16)` truncation in `up_dims`, rewritten as
natural-number division. -/
lemma upDims_floor_eq (a b m : ℕ) :
    ⌊((a : ℚ) * (m : ℚ) / b) / 16⌋₊ = a * m / b / 16 := by
  have h1 : ((a : ℚ) * (m : ℚ)) = ((a * m : ℕ) : ℚ) := by push_cast; ring
  have h2 : (16 : ℚ) = ((16 : ℕ) : ℚ) := by norm_num
  rw [h2, Nat.floor_div_nat, Nat.floor_div_nat, h1, Nat.floor_natCast]

/-- Closed form for `up_dims`, with the float truncation expressed as
natural-number division. -/
lemma upDims_eq (im : Arr3 ℕ) :
    upDims im = if im.d1 < im.d2
      then (1024, im.d1 * 1024 / im.d2 / 16 * 16)
      else (im.d2 * 1024 / im.d1 / 16 * 16, 1024) := by
  unfold upDims
  simp only [upDims_floor_eq]

/-- The scaled shorter side never exceeds 1024. -/
lemma scaled_side_le (a b : ℕ) (hab : a ≤ b) (hb : 0 < b) :
    a * 1024 / b / 16 * 16 ≤ 1024 := by
  have h1 : a * 1024 / b ≤ 1024 := by
    have hm : a * 1024 ≤ b * 1024 := Nat.mul_le_mul_right _ hab
    calc a * 1024 / b ≤ b * 1024 / b := Nat.div_le_div_right hm
      _ = 1024 := Nat.mul_div_right 1024 hb
  calc a * 1024 / b / 16 * 16 ≤ a * 1024 / b := Nat.div_mul_le_self _ _
    _ ≤ 1024 := h1

/-! ### C1 — axis reorder -/

/-- C1: every slice stack leaves the axis reorderer in `(t, spatial-b,
spatial-a)` order (time moved from last to leading axis, spatial axes
swapped), with exactly these flips applied: the xy and xz stacks are flipped
along the new height axis only, the yz stack along both remaining axes. -/
theorem axisReorder_spec (s : Arr3 ℚ) :
    ((reorderXY s).d0 = s.d2 ∧ (reorderXY s).d1 = s.d1 ∧ (reorderXY s).d2 = s.d0) ∧
    (∀ t j i, (reorderXY s).val t j i = s.val i (s.d1 - 1 - j) t) ∧
    ((reorderXZ s).d0 = s.d2 ∧ (reorderXZ s).d1 = s.d1 ∧ (reorderXZ s).d2 = s.d0) ∧
    (∀ t j i, (reorderXZ s).val t j i = s.val i (s.d1 - 1 - j) t) ∧
    ((reorderYZ s).d0 = s.d2 ∧ (reorderYZ s).d1 = s.d1 ∧ (reorderYZ s).d2 = s.d0) ∧
    (∀ t j i, (reorderYZ s).val t j i = s.val (s.d0 - 1 - i) (s.d1 - 1 - j) t) :=
  ⟨⟨rfl, rfl, rfl⟩, fun _ _ _ => rfl, ⟨rfl, rfl, rfl⟩, fun _ _ _ => rfl,
    ⟨rfl, rfl, rfl⟩, fun _ _ _ => rfl⟩

/-! ### C2 — dimension planner -/

/-- C2: for a stack of shape `(nt, h, w)` with `h, w > 0`, `up_dims` pins the
larger of width/height to exactly 1024 and floors the other to
`(shorter·1024/longer)/16·16`; both outputs are at most 1024, both are
multiples of 16, and the native size `(h, w) = (100, 200)` yields
`(w_up, h_up) = (1024, 512)`. -/
theorem upDims_spec (im : Arr3 ℕ) (hh : 0 < im.d1) (hw : 0 < im.d2) :
    (im.d1 ≤ im.d2 →
      (upDims im).1 = 1024 ∧ (upDims im).2 = im.d1 * 1024 / im.d2 / 16 * 16) ∧
    (im.d2 ≤ im.d1 →
      (upDims im).2 = 1024 ∧ (upDims im).1 = im.d2 * 1024 / im.d1 / 16 * 16) ∧
    (upDims im).1 ≤ 1024 ∧ (upDims im).2 ≤ 1024 ∧
    (upDims im).1 % 16 = 0 ∧ (upDims im).2 % 16 = 0 ∧
    (im.d1 = 100 → im.d2 = 200 → upDims im = (1024, 512)) := by
  have key : ∀ a : ℕ, 0 < a → a * 1024 / a / 16 * 16 = 1024 := by
    intro a ha
    rw [Nat.mul_div_right 1024 ha]
  have he := upDims_eq im
  rcases Nat.lt_trichotomy im.d1 im.d2 with hlt | heq | hgt
  · rw [if_pos hlt] at he
    rw [he]
    refine ⟨fun _ => ⟨rfl, rfl⟩, fun hle => absurd hle (by omega), Nat.le_refl _,
      scaled_side_le _ _ (Nat.le_of_lt hlt) hw, by norm_num, Nat.mul_mod_left _ _, ?_⟩
    intro h100 h200
    rw [h100, h200]
  · rw [if_neg (by omega)] at he
    rw [he, ← heq, key _ hh]
    exact ⟨fun _ => ⟨rfl, rfl⟩, fun _ => ⟨rfl, rfl⟩, Nat.le_refl _, Nat.le_refl _,
      by norm_num, by norm_num, fun h100 h200 => absurd heq (by omega)⟩
  · rw [if_neg (by omega)] at he
    rw [he]
    refine ⟨fun hle => absurd hle (by omega), fun _ => ⟨rfl, rfl⟩,
      scaled_side_le _ _ (Nat.le_of_lt hgt) hh, Nat.le_refl _,
      Nat.mul_mod_left _ _, by norm_num, fun h100 h200 => absurd hgt (by omega)⟩

/-- C2 witness: the documented native size `(h, w) = (100, 200)` (with
`nt = 5`) satisfies the hypotheses and yields `(w_up, h_up) = (1024, 512)`. -/
theorem upDims_spec_witness :
    upDims ⟨5, 100, 200, fun _ _ _ => 0⟩ = (1024, 512) :=
  (upDims_spec ⟨5, 100, 200, fun _ _ _ => 0⟩ (by norm_num)
    (by norm_num)).2.2.2.2.2.2 rfl rfl

/-! ### C10 — degenerate upsampled dimension -/

/-- C10: with an extreme aspect ratio (`h < w` and `h·1024/w < 16`, e.g.
`h = 1, w = 200`), `up_dims` floors the shorter output dimension to exactly
0, and the encoder's scale filter parameter is built from that 0 frame
dimension. -/
theorem upDims_degenerate (im : Arr3 ℕ) (h2 : im.d1 < im.d2)
    (h3 : im.d1 * 1024 < 16 * im.d2) :
    (upDims im).2 = 0 ∧
    scaleParams (upDims im).1 (upDims im).2 =
      ["-vf", "scale=1024:0:flags=neighbor"] := by
  have he := upDims_eq im
  rw [if_pos h2] at he
  have hw : 0 < im.d2 := by omega
  have hdiv : im.d1 * 1024 / im.d2 < 16 := by
    rw [Nat.div_lt_iff_lt_mul hw]
    omega
  have hz : im.d1 * 1024 / im.d2 / 16 = 0 := Nat.div_eq_of_lt hdiv
  rw [he, hz]
  exact ⟨rfl, rfl⟩

/-- C10 witness: a stack of shape `(nt, h, w) = (5, 1, 200)` satisfies the
hypotheses, so its planned dimensions are `(1024, 0)` and the 0 reaches the
ffmpeg scale parameter. -/
theorem upDims_degenerate_witness :
    (upDims ⟨5, 1, 200, fun _ _ _ => 0⟩).2 = 0 ∧
    scaleParams (upDims ⟨5, 1, 200, fun _ _ _ => 0⟩).1
      (upDims ⟨5, 1, 200, fun _ _ _ => 0⟩).2 =
      ["-vf", "scale=1024:0:flags=neighbor"] :=
  upDims_degenerate ⟨5, 1, 200, fun _ _ _ => 0⟩ (by norm_num) (by norm_num)

/-! ### C4 — rescaler clamps to [0, 255] -/

/-- With a non-empty input range the rescaled value lands in `[0, 255]`. -/
lemma rescaleValue_bounds (lo hi x : ℚ) (h : lo < hi) :
    0 ≤ rescaleValue lo hi x ∧ rescaleValue lo hi x ≤ 255 := by
  have hne : lo ≠ hi := ne_of_lt h
  have hpos : 0 < hi - lo := sub_pos.mpr h
  have hclo : lo ≤ npClip x lo hi := le_min h.le (le_max_left lo x)
  have hchi : npClip x lo hi ≤ hi := min_le_left hi _
  simp only [rescaleValue, if_neg hne]
  constructor
  · have hq : 0 ≤ (npClip x lo hi - lo) / (hi - lo) :=
      div_nonneg (sub_nonneg.mpr hclo) hpos.le
    positivity
  · have hq : (npClip x lo hi - lo) / (hi - lo) ≤ 1 :=
      (div_le_one hpos).mpr (sub_le_sub_right hchi lo)
    calc (npClip x lo hi - lo) / (hi - lo) * 255 ≤ 1 * 255 := by
          exact mul_le_mul_of_nonneg_right hq (by norm_num)
      _ = 255 := one_mul 255

/-- For a value in `[0, 255]` the uint8 cast is plain truncation and stays
at most 255. -/
lemma astypeUint8_of_bounds (q : ℚ) (h255 : q ≤ 255) :
    astypeUint8 q = ⌊q⌋.toNat ∧ astypeUint8 q ≤ 255 := by
  have hfl : ⌊q⌋ ≤ 255 := by
    have := Int.floor_le_floor h255
    simpa using this
  have hlt : ⌊q⌋.toNat < 256 := by omega
  constructor
  · exact Nat.mod_eq_of_lt hlt
  · rw [astypeUint8, Nat.mod_eq_of_lt hlt]; omega

/-- C4: for every input range with `lo < hi`, the rescaler maps `[lo, hi]`
affinely onto `[0, 255]`, clamps values below `lo` to 0 and above `hi` to
255, casts by truncation, and every voxel of a rescaled stack lies in
`[0, 255]`. -/
theorem rescale_clamps (lo hi : ℚ) (hlt : lo < hi) :
    (∀ x, x ≤ lo → rescaleValue lo hi x = 0) ∧
    (∀ x, hi ≤ x → rescaleValue lo hi x = 255) ∧
    (∀ x, lo ≤ x → x ≤ hi → rescaleValue lo hi x = (x - lo) / (hi - lo) * 255) ∧
    (∀ x, 0 ≤ rescaleValue lo hi x ∧ rescaleValue lo hi x ≤ 255) ∧
    (∀ x, astypeUint8 (rescaleValue lo hi x) = ⌊rescaleValue lo hi x⌋.toNat) ∧
    (∀ a : Arr3 ℚ, ∀ i j k, (rescaleStack lo hi a).val i j k ≤ 255) := by
  have hne : lo ≠ hi := ne_of_lt hlt
  refine ⟨?_, ?_, ?_, fun x => rescaleValue_bounds lo hi x hlt, ?_, ?_⟩
  · intro x hx
    simp only [rescaleValue, npClip, if_neg hne]
    rw [max_eq_left hx, min_eq_right hlt.le]
    simp
  · intro x hx
    simp only [rescaleValue, npClip, if_neg hne]
    rw [max_eq_right (le_trans hlt.le hx), min_eq_left hx,
      div_self (ne_of_gt (sub_pos.mpr hlt))]
    exact one_mul 255
  · intro x hx1 hx2
    simp only [rescaleValue, npClip, if_neg hne]
    rw [max_eq_right hx1, min_eq_right hx2]
  · intro x
    obtain ⟨h0, h255⟩ := rescaleValue_bounds lo hi x hlt
    exact (astypeUint8_of_bounds _ h255).1
  · intro a i j k
    obtain ⟨h0, h255⟩ := rescaleValue_bounds lo hi (a.val i j k) hlt
    exact (astypeUint8_of_bounds _ h255).2

/-- C4 witness: with range `(0, 2)`, the outlier 3 clamps to 255. -/
theorem rescale_clamps_witness : rescaleValue 0 2 3 = 255 :=
  (rescale_clamps 0 2 (by norm_num)).2.1 3 (by norm_num)

/-! ### C9 — monotonicity inside the percentile range -/

/-- C9: on values strictly inside `(lo, hi)` the rescaler is strictly
monotone before the cast, so the uint8 outputs preserve the relative order
(`≤` after truncation). -/
theorem rescale_monotone (lo hi x y : ℚ) (hlt : lo < hi) (hx : lo < x)
    (hxy : x < y) (hy : y < hi) :
    rescaleValue lo hi x < rescaleValue lo hi y ∧
    astypeUint8 (rescaleValue lo hi x) ≤ astypeUint8 (rescaleValue lo hi y) := by
  have hne : lo ≠ hi := ne_of_lt hlt
  have hpos : 0 < hi - lo := sub_pos.mpr hlt
  have hxr : rescaleValue lo hi x = (x - lo) / (hi - lo) * 255 := by
    simp only [rescaleValue, npClip, if_neg hne]
    rw [max_eq_right hx.le, min_eq_right (le_trans hxy.le hy.le)]
  have hyr : rescaleValue lo hi y = (y - lo) / (hi - lo) * 255 := by
    simp only [rescaleValue, npClip, if_neg hne]
    rw [max_eq_right (le_trans hx.le hxy.le), min_eq_right hy.le]
  have hmono : rescaleValue lo hi x < rescaleValue lo hi y := by
    rw [hxr, hyr]
    have hq : (x - lo) / (hi - lo) < (y - lo) / (hi - lo) :=
      (div_lt_div_iff_of_pos_right hpos).mpr (sub_lt_sub_right hxy lo)
    exact mul_lt_mul_of_pos_right hq (by norm_num)
  refine ⟨hmono, ?_⟩
  obtain ⟨hx0, hx255⟩ := rescaleValue_bounds lo hi x hlt
  obtain ⟨hy0, hy255⟩ := rescaleValue_bounds lo hi y hlt
  rw [(astypeUint8_of_bounds _ hx255).1, (astypeUint8_of_bounds _ hy255).1]
  exact Int.toNat_le_toNat (Int.floor_le_floor hmono.le)

/-- C9 witness: with range `(0, 10)`, the interior values 2 < 4 keep their
order through rescaling and the uint8 cast. -/
theorem rescale_monotone_witness :
    rescaleValue 0 10 2 < rescaleValue 0 10 4 ∧
    astypeUint8 (rescaleValue 0 10 2) ≤ astypeUint8 (rescaleValue 0 10 4) :=
  rescale_monotone 0 10 2 4 (by norm_num) (by norm_num) (by norm_num) (by norm_num)

/-! ### C3 — one shared intensity range -/

/-- C3: the pipeline computes a single `IntensityRange` pair from the full
4D array and supplies that identical pair as the input range of all three
rescale operations; nothing is recomputed per stack. -/
theorem pipeline_shared_range (v : Volume) (x0 y0 z0 : ℕ) :
    ∃ r : ℚ × ℚ, r = intensityLimits v ∧
      pipeline v x0 y0 z0 =
        (rescaleStack r.1 r.2 (reorderXY (toArr3 (sliceXY v z0))),
          rescaleStack r.1 r.2 (reorderXZ (toArr3 (sliceXZ v y0))),
          rescaleStack r.1 r.2 (reorderYZ (toArr3 (sliceYZ v x0)))) :=
  ⟨intensityLimits v, rfl, rfl⟩

/-! ### C5 — global percentile computation -/

/-- `mergeSort` with the rational order produces a `≤`-sorted list. -/
lemma mergeSort_sorted_le (l : List ℚ) :
    (l.mergeSort (fun a b => decide (a ≤ b))).Sorted (· ≤ ·) := by
  have h : (l.mergeSort (fun a b => decide (a ≤ b))).Pairwise
      (fun a b : ℚ => decide (a ≤ b)) :=
    List.sorted_mergeSort
      (fun a b c hab hbc => by
        simp only [decide_eq_true_eq] at hab hbc ⊢
        exact le_trans hab hbc)
      (fun a b => by simpa using le_total a b) l
  exact h.imp (fun hab => by simpa using hab)

/-- Sorting is invariant under permutation of the input. -/
lemma mergeSort_perm_congr {l₁ l₂ : List ℚ} (h : l₁.Perm l₂) :
    l₁.mergeSort (fun a b => decide (a ≤ b)) =
      l₂.mergeSort (fun a b => decide (a ≤ b)) :=
  List.eq_of_perm_of_sorted
    ((List.mergeSort_perm l₁ _).trans (h.trans (List.mergeSort_perm l₂ _).symm))
    (mergeSort_sorted_le l₁) (mergeSort_sorted_le l₂)

/-- `np.percentile` depends only on the multiset of values. -/
lemma npPercentile_perm (p : ℚ) {l₁ l₂ : List ℚ} (h : l₁.Perm l₂) :
    npPercentile p l₁ = npPercentile p l₂ := by
  unfold npPercentile
  rw [mergeSort_perm_congr h, h.length_eq]

/-- C5: the intensity normalizer returns the pair of 5th and 99th
percentiles of all voxel intensities of the entire 4D volume at once: it is
a pure function of the volume, and any two volumes holding the same
multiset of voxel values (regardless of slice or frame layout) get the
identical range. -/
theorem intensityLimits_global (v w : Volume)
    (hperm : (allVoxels v).Perm (allVoxels w)) :
    intensityLimits v =
      (npPercentile 5 (allVoxels v), npPercentile 99 (allVoxels v)) ∧
    intensityLimits v = intensityLimits w := by
  refine ⟨rfl, ?_⟩
  unfold intensityLimits
  rw [npPercentile_perm 5 hperm, npPercentile_perm 99 hperm]

/-- C5 witness: a 1×1×1×2 volume with values `[0, 1]` along time and a
2×1×1×1 volume with the same values along x (reversed) share one range. -/
theorem intensityLimits_global_witness :
    intensityLimits ⟨1, 1, 1, 2, fun _ _ _ t => (t : ℚ)⟩ =
      (npPercentile 5 (allVoxels ⟨1, 1, 1, 2, fun _ _ _ t => (t : ℚ)⟩),
        npPercentile 99 (allVoxels ⟨1, 1, 1, 2, fun _ _ _ t => (t : ℚ)⟩)) ∧
    intensityLimits ⟨1, 1, 1, 2, fun _ _ _ t => (t : ℚ)⟩ =
      intensityLimits ⟨2, 1, 1, 1, fun x _ _ _ => ((1 - x : ℕ) : ℚ)⟩ :=
  intensityLimits_global _ _ (by decide)

/-! ### C8 — out-of-bounds coordinate is a fatal indexing error -/

/-- C8: the coordinate is three non-negative integers and is never
validated; whenever one component is outside the volume's spatial bounds,
the corresponding array-indexing operation raises (modelled as `none`) and
the slicing stage of the run aborts. -/
theorem outOfBounds_fails (v : Volume) (x0 y0 z0 : ℕ)
    (h : v.nx ≤ x0 ∨ v.ny ≤ y0 ∨ v.nz ≤ z0) :
    extractSlices v x0 y0 z0 = none := by
  rcases h with h | h | h
  · have h3 : sliceYZChecked v x0 = none := by
      unfold sliceYZChecked; rw [if_neg (by omega)]
    unfold extractSlices
    cases h1 : sliceXYChecked v z0 <;> cases h2 : sliceXZChecked v y0 <;>
      simp [h1, h2, h3]
  · have h2 : sliceXZChecked v y0 = none := by
      unfold sliceXZChecked; rw [if_neg (by omega)]
    unfold extractSlices
    cases h1 : sliceXYChecked v z0 <;> simp [h1, h2]
  · have h1 : sliceXYChecked v z0 = none := by
      unfold sliceXYChecked; rw [if_neg (by omega)]
    unfold extractSlices
    simp [h1]

/-- C8 witness: on a 3×3×3×2 volume, the coordinate (5, 1, 1) is out of
range in x and the slicing stage yields the error. -/
theorem outOfBounds_fails_witness :
    extractSlices ⟨3, 3, 3, 2, fun _ _ _ _ => 0⟩ 5 1 1 = none :=
  outOfBounds_fails ⟨3, 3, 3, 2, fun _ _ _ _ => 0⟩ 5 1 1 (Or.inl (by norm_num))

/-! ### C6 — slicer output shapes -/

/-- C6 counterexample: for the all-zero volume of shape `(1, 2, 2, 2)` —
all dimensions at least 1 — and the in-bounds coordinate `z0 = 0`, the xy
stack does NOT have the claimed shape `(nx, ny, nt) = (1, 2, 2)`: the
`squeeze()` call collapsed the size-1 x axis. -/
theorem slicer_shape_counterexample :
    (sliceXY ⟨1, 2, 2, 2, fun _ _ _ _ => 0⟩ 0).shape ≠ [1, 2, 2] := by decide

/-- `squeeze` keeps a rank-3 shape without size-1 axes. -/
lemma squeezeShape_of_ne {a b c : ℕ} (ha : a ≠ 1) (hb : b ≠ 1) (hc : c ≠ 1) :
    squeezeShape [a, b, c] = [a, b, c] := by
  simp [squeezeShape, ha, hb, hc]

/-- `squeeze` keeps rank-3 indices without size-1 axes. -/
lemma unsqueezeIdx_of_ne {a b c : ℕ} (i j t : ℕ) (ha : a ≠ 1) (hb : b ≠ 1)
    (hc : c ≠ 1) : unsqueezeIdx [a, b, c] [i, j, t] = [i, j, t] := by
  simp [unsqueezeIdx, ha, hb, hc]

/-- C6 amended: for every 4D volume all of whose dimensions are at least 2
(so that `squeeze()` removes nothing) and every coordinate, the slicer
produces exactly three 3D stacks by fixing one spatial axis each — xy at
fixed `z0`, xz at fixed `y0`, yz at fixed `x0` — with shapes
`(nx, ny, nt)`, `(nx, nz, nt)` and `(ny, nz, nt)` respectively. -/
theorem slicer_spec (v : Volume) (x0 y0 z0 : ℕ) (hx : 2 ≤ v.nx)
    (hy : 2 ≤ v.ny) (hz : 2 ≤ v.nz) (ht : 2 ≤ v.nt) :
    ((sliceXY v z0).shape = [v.nx, v.ny, v.nt] ∧
      ∀ i j t, (sliceXY v z0).val [i, j, t] = v.val i j z0 t) ∧
    ((sliceXZ v y0).shape = [v.nx, v.nz, v.nt] ∧
      ∀ i k t, (sliceXZ v y0).val [i, k, t] = v.val i y0 k t) ∧
    ((sliceYZ v x0).shape = [v.ny, v.nz, v.nt] ∧
      ∀ j k t, (sliceYZ v x0).val [j, k, t] = v.val x0 j k t) := by
  have hx' : v.nx ≠ 1 := by omega
  have hy' : v.ny ≠ 1 := by omega
  have hz' : v.nz ≠ 1 := by omega
  have ht' : v.nt ≠ 1 := by omega
  refine ⟨⟨squeezeShape_of_ne hx' hy' ht', ?_⟩,
    ⟨squeezeShape_of_ne hx' hz' ht', ?_⟩,
    ⟨squeezeShape_of_ne hy' hz' ht', ?_⟩⟩
  · intro i j t
    show (rawXY v z0).val (unsqueezeIdx [v.nx, v.ny, v.nt] [i, j, t]) = _
    rw [unsqueezeIdx_of_ne i j t hx' hy' ht']
    rfl
  · intro i k t
    show (rawXZ v y0).val (unsqueezeIdx [v.nx, v.nz, v.nt] [i, k, t]) = _
    rw [unsqueezeIdx_of_ne i k t hx' hz' ht']
    rfl
  · intro j k t
    show (rawYZ v x0).val (unsqueezeIdx [v.ny, v.nz, v.nt] [j, k, t]) = _
    rw [unsqueezeIdx_of_ne j k t hy' hz' ht']
    rfl

/-- C6 witness: a 2×2×2×2 volume with distinguishable voxel values and the
coordinate (1, 1, 1) satisfies the hypotheses, so all three stacks have the
documented shapes and entries. -/
theorem slicer_spec_witness :
    ((sliceXY ⟨2, 2, 2, 2, fun x y z t => ((x + 10 * y + 100 * z + 1000 * t : ℕ) : ℚ)⟩ 1).shape = [2, 2, 2] ∧
      ∀ i j t, (sliceXY ⟨2, 2, 2, 2, fun x y z t => ((x + 10 * y + 100 * z + 1000 * t : ℕ) : ℚ)⟩ 1).val [i, j, t] =
        ((i + 10 * j + 100 * 1 + 1000 * t : ℕ) : ℚ)) ∧
    ((sliceXZ ⟨2, 2, 2, 2, fun x y z t => ((x + 10 * y + 100 * z + 1000 * t : ℕ) : ℚ)⟩ 1).shape = [2, 2, 2] ∧
      ∀ i k t, (sliceXZ ⟨2, 2, 2, 2, fun x y z t => ((x + 10 * y + 100 * z + 1000 * t : ℕ) : ℚ)⟩ 1).val [i, k, t] =
        ((i + 10 * 1 + 100 * k + 1000 * t : ℕ) : ℚ)) ∧
    ((sliceYZ ⟨2, 2, 2, 2, fun x y z t => ((x + 10 * y + 100 * z + 1000 * t : ℕ) : ℚ)⟩ 1).shape = [2, 2, 2] ∧
      ∀ j k t, (sliceYZ ⟨2, 2, 2, 2, fun x y z t => ((x + 10 * y + 100 * z + 1000 * t : ℕ) : ℚ)⟩ 1).val [j, k, t] =
        ((1 + 10 * j + 100 * k + 1000 * t : ℕ) : ℚ)) :=
  slicer_spec ⟨2, 2, 2, 2, fun x y z t => ((x + 10 * y + 100 * z + 1000 * t : ℕ) : ℚ)⟩
    1 1 1 (by norm_num) (by norm_num) (by norm_num) (by norm_num)

/-! ### C7 — three named encode jobs -/

/-- Appending different suffixes to one stub gives different names. -/
lemma string_append_right_ne (s : String) {a b : String} (h : a ≠ b) :
    s ++ a ≠ s ++ b := by
  intro he
  have hd := congrArg String.data he
  simp only [String.data_append] at hd
  exact h (String.ext (List.append_cancel_left hd))

/-- C7: every run produces exactly three encode jobs; their filenames are
the input basename with the volume extensions stripped plus the suffixes
`_xy`, `_xz`, `_yz` and the `.mp4` extension (three distinct files); each
is written at a fixed 24 fps; and each carries the explicit
nearest-neighbor scale filter parameter for its own stack's planned
dimensions. -/
theorem movieJobs_spec (fname : String) (v : Volume) (x0 y0 z0 : ℕ) :
    (movieJobs fname v x0 y0 z0).length = 3 ∧
    (movieJobs fname v x0 y0 z0).map EncodeJob.fname =
      [imgStub fname ++ "_xy.mp4", imgStub fname ++ "_xz.mp4",
        imgStub fname ++ "_yz.mp4"] ∧
    ((movieJobs fname v x0 y0 z0).map EncodeJob.fname).Nodup ∧
    (movieJobs fname v x0 y0 z0).map EncodeJob.fps = [24, 24, 24] ∧
    (movieJobs fname v x0 y0 z0).map EncodeJob.outputParams =
      [scaleParams (upDims (pipeline v x0 y0 z0).1).1
          (upDims (pipeline v x0 y0 z0).1).2,
        scaleParams (upDims (pipeline v x0 y0 z0).2.1).1
          (upDims (pipeline v x0 y0 z0).2.1).2,
        scaleParams (upDims (pipeline v x0 y0 z0).2.2).1
          (upDims (pipeline v x0 y0 z0).2.2).2] := by
  refine ⟨rfl, rfl, ?_, rfl, rfl⟩
  have h12 : ("_xy.mp4" : String) ≠ "_xz.mp4" := by decide
  have h13 : ("_xy.mp4" : String) ≠ "_yz.mp4" := by decide
  have h23 : ("_xz.mp4" : String) ≠ "_yz.mp4" := by decide
  have e : (movieJobs fname v x0 y0 z0).map EncodeJob.fname =
      [imgStub fname ++ "_xy.mp4", imgStub fname ++ "_xz.mp4",
        imgStub fname ++ "_yz.mp4"] := rfl
  rw [e, List.nodup_cons, List.nodup_cons]
  refine ⟨?_, ?_, List.nodup_singleton _⟩
  · intro hmem
    rcases List.mem_cons.mp hmem with h | hmem2
    · exact string_append_right_ne _ h12 h
    · rcases List.mem_cons.mp hmem2 with h | hmem3
      · exact string_append_right_ne _ h13 h
      · exact List.not_mem_nil _ hmem3
  · intro hmem
    rcases List.mem_cons.mp hmem with h | hmem2
    · exact string_append_right_ne _ h23 h
    · exact List.not_mem_nil _ hmem2

end Orthomovie
